import Mathlib

/-
Verification of the pyani genome-download engine
(src/genbank_get_genomes_by_taxon.py and src/pyani/scripts/subcommands.py)
against its natural-language specification.

The Python functions are shallowly embedded as Lean definitions.  Remote
calls (Entrez queries, HTTP downloads) are modelled as oracle functions
passed in as parameters; the control flow, branch conditions, accumulator
updates and loop structure are translated directly from the source.
-/

namespace PyaniSpec

/-! ## Link-strategy resolution: get_contig_uids (genbank_get_genomes_by_taxon.py, lines 170-230)

The Entrez elink reply is a list of LinkSetDb entries, each carrying a
category name (LinkName) and the list of linked record ids (Link).  -/

/-- One entry of links[0]['LinkSetDb']: a link-category name plus the list of
linked record ids (each Python Link entry's 'Id'). -/
structure LinkSetDb where
  linkName : String
  link : List Nat
deriving DecidableEq

/-- The contig collection held in the result of get_contig_uids: the direct
strategies build a Python set of contig UIDs, while the wgsmaster path
returns the list of sequence descriptions parsed from the extracted FASTA
file (a list, so duplicates are possible). -/
inductive ContigSet
  | direct (s : Finset Nat)
  | archived (l : List Nat)
deriving DecidableEq

/-- Python len() of the contig collection, as used by the retmax-cap test. -/
def ContigSet.size : ContigSet → Nat
  | .direct s => s.card
  | .archived l => l.length

/-- The dictionary returned by get_contig_uids, extended with a count of how
many times retrieve_wgsmaster_contigs was invoked (observable as network
activity; used to state the result-cap re-resolution property). -/
structure ContigResult where
  wgsmaster : Bool
  filename : Option String
  contig_uids : ContigSet
  archiveFetches : Nat
deriving DecidableEq

/-- Possible outcomes of get_contig_uids: a returned dictionary, a fatal
sys.exit(1) (from the except handler or the no-recognised-link branch), or
an unhandled exception escaping the function (the retmax-cap branch sits
outside the try block, so an IndexError there propagates). -/
inductive GcuOutcome
  | ok (r : ContigResult)
  | fatal
  | crash
deriving DecidableEq

/-- The list of category names: [l['LinkName'] for l in links[0]['LinkSetDb']]. -/
def linknames (links : List LinkSetDb) : List String := links.map (·.linkName)

/-- The three recognised link strategies, in the source's priority order. -/
inductive Strategy
  | insdc
  | refseq
  | wgsmaster
deriving DecidableEq

/-- The if/elif/elif/else chain of get_contig_uids (lines 192-211): fixed
priority assembly_nuccore_insdc over assembly_nuccore_refseq over
assembly_nuccore_wgsmaster; none recognised gives none (fatal). -/
def choose_strategy (names : List String) : Option Strategy :=
  if "assembly_nuccore_insdc" ∈ names then some .insdc
  else if "assembly_nuccore_refseq" ∈ names then some .refseq
  else if "assembly_nuccore_wgsmaster" ∈ names then some .wgsmaster
  else none

/-- Python [l for l in links if l['LinkName'] == name][0], as an Option:
head of the filtered list. -/
def findLink (links : List LinkSetDb) (name : String) : Option LinkSetDb :=
  (links.filter (·.linkName = name)).head?

/-- Python [l['Link'][0]['Id'] for l in links if l['LinkName'] ==
'assembly_nuccore_wgsmaster'][0].  The comprehension indexes l['Link'][0]
for every matching entry, so it raises (none) when there is no matching
entry or when any matching entry has an empty Link list; otherwise it
yields the first id of the first matching entry. -/
def wgsmasterUid (links : List LinkSetDb) : Option Nat :=
  let ms := links.filter (·.linkName = "assembly_nuccore_wgsmaster")
  if ms.any (·.link.isEmpty) then none
  else ms.head?.bind (fun l => l.link.head?)

/-- Shallow embedding of get_contig_uids (lines 170-230).  The oracle
archive models retrieve_wgsmaster_contigs: given the wgsmaster uid it
returns the list of sequence descriptions of the extracted FASTA file and
the extracted filename.  The selection block sits in a try whose except
handler exits fatally; the retmax-cap check (len == 100000) runs after it,
outside the try, and re-resolves through the wgsmaster links regardless of
which strategy had been chosen. -/
def get_contig_uids (links : List LinkSetDb)
    (archive : Nat → List Nat × String) : GcuOutcome :=
  let sel : Option (Bool × Option String × ContigSet × Nat) :=
    match choose_strategy (linknames links) with
    | some .insdc =>
        (findLink links "assembly_nuccore_insdc").map
          (fun c => (false, none, ContigSet.direct c.link.toFinset, 0))
    | some .refseq =>
        (findLink links "assembly_nuccore_refseq").map
          (fun c => (false, none, ContigSet.direct c.link.toFinset, 0))
    | some .wgsmaster =>
        (wgsmasterUid links).map
          (fun u => (true, some (archive u).2, ContigSet.archived (archive u).1, 1))
    | none => none
  match sel with
  | none => .fatal
  | some (wgs, fn, cs, calls) =>
    if cs.size = 100000 then
      match wgsmasterUid links with
      | none => .crash
      | some u => .ok ⟨true, some (archive u).2, ContigSet.archived (archive u).1, calls + 1⟩
    else .ok ⟨wgs, fn, cs, calls⟩

/-! ## Archive fetch, version search: retrieve_wgsmaster_contigs (lines 234-312)

The download-size probe loop: while str(dlver) != '0' and not fsize, probe
the URL for the current version; on failure decrement the version.  The
probe oracle returns the Content-length on success, none when any step of
the probe raises. -/

/-- Result of the version-search while loop, carrying the list of versions
probed in order. -/
inductive VSOutcome
  | success (ver fsize : Nat) (attempted : List Nat)
  | exhausted (attempted : List Nat)
deriving DecidableEq

/-- The while loop of retrieve_wgsmaster_contigs (lines 252-274): probe the
current version; on failure decrement and continue; stop when a
content-length is obtained or the version reaches zero.  acc accumulates
already-probed versions in reverse. -/
def version_search (probe : Nat → Option Nat) : Nat → List Nat → VSOutcome
  | 0, acc => .exhausted acc.reverse
  | v + 1, acc =>
    match probe (v + 1) with
    | some fs => .success (v + 1) fs (acc.reverse ++ [v + 1])
    | none => version_search probe v ((v + 1) :: acc)

/-- Outcome of the archive fetch as far as the version search decides it:
either a version with a known size was found and streaming begins, or every
probe failed.  In the latter case the loop exits with fsize = None and the
subsequent download block raises on the unbound response handle; its bare
except handler logs and calls sys.exit(1), so the run ends fatally. -/
inductive ArchiveOutcome
  | downloaded (ver fsize : Nat)
  | fatal (attempted : List Nat)
deriving DecidableEq

/-- The version-search phase of retrieve_wgsmaster_contigs: dispatch on the
while loop's result; exhaustion is fatal (sys.exit(1) out of the download
block), success proceeds to streaming the chosen version. -/
def retrieve_wgsmaster_version (probe : Nat → Option Nat) (startVer : Nat) :
    ArchiveOutcome :=
  match version_search probe startVer [] with
  | .success v fs _ => .downloaded v fs
  | .exhausted att => .fatal att

/-- The decreasing list [v, v-1, ..., 1] of versions probed when every probe
fails starting from v. -/
def descList : Nat → List Nat
  | 0 => []
  | v + 1 => (v + 1) :: descList v

/-! ## Batched sequence fetch: write_contigs (lines 348-433) -/

/-- Python range(0, stop, step) for a positive step: the batch start
offsets 0, step, 2*step, ... below stop. -/
def rangeStep (stop step : Nat) : List Nat :=
  (List.range ((stop + step - 1) / step)).map (· * step)

/-- The records collected by one full pass of the batched fetch in
write_contigs (lines 391-401): one Entrez.efetch call per offset in
range(0, n, 10000), results concatenated in order.  The oracle batchFetch
gives, for a pass index and a batch start offset, the records that call
returns. -/
def pass_records (batchFetch : Nat → Nat → List Nat) (n pass : Nat) : List Nat :=
  ((rangeStep n 10000).map (batchFetch pass)).flatten

/-- The loop state write_contigs ends with: the tries counter, the records
list of the last executed pass, and the success flag. -/
structure FetchResult where
  tries : Nat
  records : List Nat
  success : Bool
deriving DecidableEq

/-- The while loop of write_contigs (lines 388-424): while not success and
tries < retries, run a full pass, increment tries, and set success exactly
when the returned-record count equals the expected count (the over-return
branch only logs a warning and leaves success unset).  fuel stands for
retries - tries. -/
def wc_loop (batchFetch : Nat → Nat → List Nat) (n : Nat) :
    Nat → Nat → List Nat → Bool → FetchResult
  | 0, tries, records, success => ⟨tries, records, success⟩
  | fuel + 1, tries, records, success =>
    if success then ⟨tries, records, success⟩
    else
      let recs := pass_records batchFetch n tries
      wc_loop batchFetch n fuel (tries + 1) recs (recs.length == n)

/-- The fetch phase of write_contigs, entered with tries = 0, success =
False and no records. -/
def write_contigs_fetch (batchFetch : Nat → Nat → List Nat)
    (n retries : Nat) : FetchResult :=
  wc_loop batchFetch n retries 0 [] false

/-- The records write_contigs hands to SeqIO.write after the loop (line
432): whatever the final pass collected, written unconditionally (the
failure branch only logs and continues). -/
def write_contigs_written (batchFetch : Nat → Nat → List Nat)
    (n retries : Nat) : List Nat :=
  (write_contigs_fetch batchFetch n retries).records

/-! ## Retry executor: entrez_retry (lines 118-135) -/

/-- Outcome of entrez_retry: the wrapped call's own result returned
unchanged, or sys.exit(1) after too many failures.  The log field records,
in order, the numeric attempt counter printed by each failure warning
(the source prints tries+1 after incrementing tries). -/
inductive RetryOutcome (α : Type)
  | ok (a : α) (log : List Nat)
  | fatal (log : List Nat)
deriving DecidableEq

/-- The while loop of entrez_retry: while not success and tries < retries,
invoke the operation; success returns its output, failure increments tries
and logs a warning carrying tries+1.  The oracle f gives the result of the
invocation made when the counter equals that index; fuel stands for
retries - tries. -/
def er_loop {α : Type} (f : Nat → Except Unit α) :
    Nat → Nat → List Nat → RetryOutcome α
  | 0, _, log => .fatal log.reverse
  | fuel + 1, tries, log =>
    match f tries with
    | .ok a => .ok a log.reverse
    | .error _ => er_loop f fuel (tries + 1) ((tries + 2) :: log)

/-- Shallow embedding of entrez_retry: run the loop from tries = 0 with an
empty log; exhaustion is sys.exit(1), never an error value. -/
def entrez_retry {α : Type} (f : Nat → Except Unit α) (retries : Nat) :
    RetryOutcome α :=
  er_loop f retries 0 []

/-- The warning numbers logged by m consecutive failures: the source prints
tries+1 after the increment, so failure j (0-based) logs j+2. -/
def failLog (m : Nat) : List Nat := (List.range m).map (fun j => j + 2)

/-! ## Taxon resolution: get_asm_uids (lines 139-166)

The server-side search result is modelled as the list of assembly UIDs the
search matched (length = the Count field); the paged efetch at offset
start returns the slice of up to 250 records from that offset. -/

/-- The page start offsets range(0, result_count, 250) of get_asm_uids. -/
def asm_pages (resultCount : Nat) : List Nat := rangeStep resultCount 250

/-- Shallow embedding of get_asm_uids: start from the empty set and union
in each page's records, one page per offset (asm_ids = asm_ids.union(...)). -/
def get_asm_uids (results : List Nat) : Finset Nat :=
  (asm_pages results.length).foldl
    (fun acc s => acc ∪ ((results.drop s).take 250).toFinset) ∅

/-! ## Orchestrator: subcmd_download (pyani/scripts/subcommands.py, lines 58-168) -/

/-- One entry of the skip list: the Skipped namedtuple
(taxon_id, accession, organism, strain, url); the source passes the
assembly uid in the accession slot. -/
structure Skipped where
  taxon_id : Nat
  accession : Nat
  organism : String
  strain : String
  url : String
deriving DecidableEq

/-- The run-scoped accumulators of subcmd_download, plus the observable
side effects needed by the claims: the uids whose archive was extracted and
the uids whose hash check logged a failure warning. -/
structure DLState where
  classes : List String
  labels : List String
  skippedlist : List Skipped
  extracted : List Nat
  hashWarnings : List Nat
deriving DecidableEq

/-- The remote collaborators of subcmd_download, as oracles keyed by
assembly uid: the class and label text built by download.create_labels,
the organism/strain from the eSummary, the download URL, the skipped flag
of the DownloadStatus, the hash-check verdict (check_hash is modelled from
the spec: it returns a pass/fail result and never raises), the
os.path.exists test on the extraction target, and the noclobber flag. -/
structure DLEnv where
  classOf : Nat → String
  labelOf : Nat → String
  organismOf : Nat → String
  strainOf : Nat → String
  urlOf : Nat → String
  skippedOf : Nat → Bool
  hashPassedOf : Nat → Bool
  existsOf : Nat → Bool
  noclobber : Bool

/-- The skip-list record appended for a skipped uid. -/
def mkSkipped (env : DLEnv) (tid uid : Nat) : Skipped :=
  ⟨tid, uid, env.organismOf uid, env.strainOf uid, env.urlOf uid⟩

/-- Modelled from the spec: pyani's download.check_hash (its body is not
under src/, only its call site is) computes a local hash of the downloaded
file, compares it with the server-declared hash and returns a pass/fail
result, never raising; its verdict for each assembly uid is supplied by
the hashPassedOf oracle. -/
def check_hash (env : DLEnv) (uid : Nat) : Bool := env.hashPassedOf uid

/-- The body of the inner per-uid loop of subcmd_download (lines 91-153),
translated statement by statement: append the class and label text, then
attempt the download; if it was skipped, append a Skipped record and
continue; otherwise log a hash warning when the check failed, and extract
the archive unless the target exists and noclobber is set. -/
def download_uid_step (env : DLEnv) (tid : Nat) (st : DLState) (uid : Nat) :
    DLState :=
  let st1 := { st with classes := st.classes ++ [env.classOf uid],
                       labels := st.labels ++ [env.labelOf uid] }
  if env.skippedOf uid then
    { st1 with skippedlist := st1.skippedlist ++ [mkSkipped env tid uid] }
  else
    let st2 := if check_hash env uid then st1
               else { st1 with hashWarnings := st1.hashWarnings ++ [uid] }
    if env.existsOf uid && env.noclobber then st2
    else { st2 with extracted := st2.extracted ++ [uid] }

/-- The double loop of subcmd_download over the taxon/uid dictionary,
starting from empty accumulators. -/
def subcmd_download (env : DLEnv) (asm_dict : List (Nat × List Nat)) :
    DLState :=
  asm_dict.foldl (fun st p => p.2.foldl (download_uid_step env p.1) st)
    ⟨[], [], [], [], []⟩

/-! ## Class and label text: get_class_label_info (lines 315-344)

Strings are modelled as lists of characters.  Python's
organism.split(' ', 1) splits at the first space only. -/

/-- Python s.split(' ', 1): one element when s has no space, otherwise the
part before the first space and the part after it. -/
def split1 (cs : List Char) : List (List Char) :=
  if (' ' : Char) ∈ cs then
    [cs.takeWhile (fun c => c ≠ ' '), (cs.dropWhile (fun c => c ≠ ' ')).tail]
  else [cs]

/-- The class/label construction shared by get_class_label_info (lines
336-339) and write_contigs (lines 377-380): unpack the 1-split of the
organism into genus and species (ValueError when there is no space), take
the first character of the genus (IndexError when the genus is empty), and
format the class and label lines. -/
def get_class_label_info (gname organism strain : List Char) :
    Except String (List Char × List Char) :=
  match split1 organism with
  | [genus, species] =>
    match genus with
    | [] => .error "IndexError: string index out of range"
    | g :: _ =>
      let ginit := [g, '.']
      let labeltxt := gname ++ '\t' :: (ginit ++ ' ' :: (species ++ ' ' :: strain))
      let classtxt := gname ++ '\t' :: organism
      .ok (classtxt, labeltxt)
  | _ => .error "ValueError: need more than one value to unpack"

/-- Whether an Except-valued computation returned normally. -/
def returnsOk {α : Type} : Except String α → Bool
  | .ok _ => true
  | .error _ => false

/-! ## Helper lemmas: get_contig_uids end-to-end cases -/

lemma gcu_insdc_nocap (links : List LinkSetDb) (archive : Nat → List Nat × String)
    (c : LinkSetDb) (h1 : choose_strategy (linknames links) = some Strategy.insdc)
    (h2 : findLink links "assembly_nuccore_insdc" = some c)
    (h3 : c.link.toFinset.card ≠ 100000) :
    get_contig_uids links archive =
      GcuOutcome.ok ⟨false, none, ContigSet.direct c.link.toFinset, 0⟩ := by
  simp [get_contig_uids, h1, h2, ContigSet.size, h3]

lemma gcu_insdc_cap (links : List LinkSetDb) (archive : Nat → List Nat × String)
    (c : LinkSetDb) (u : Nat)
    (h1 : choose_strategy (linknames links) = some Strategy.insdc)
    (h2 : findLink links "assembly_nuccore_insdc" = some c)
    (h3 : c.link.toFinset.card = 100000) (h4 : wgsmasterUid links = some u) :
    get_contig_uids links archive =
      GcuOutcome.ok ⟨true, some (archive u).2, ContigSet.archived (archive u).1, 1⟩ := by
  simp [get_contig_uids, h1, h2, ContigSet.size, h3, h4]

lemma gcu_refseq_nocap (links : List LinkSetDb) (archive : Nat → List Nat × String)
    (c : LinkSetDb) (h1 : choose_strategy (linknames links) = some Strategy.refseq)
    (h2 : findLink links "assembly_nuccore_refseq" = some c)
    (h3 : c.link.toFinset.card ≠ 100000) :
    get_contig_uids links archive =
      GcuOutcome.ok ⟨false, none, ContigSet.direct c.link.toFinset, 0⟩ := by
  simp [get_contig_uids, h1, h2, ContigSet.size, h3]

lemma gcu_refseq_cap (links : List LinkSetDb) (archive : Nat → List Nat × String)
    (c : LinkSetDb) (u : Nat)
    (h1 : choose_strategy (linknames links) = some Strategy.refseq)
    (h2 : findLink links "assembly_nuccore_refseq" = some c)
    (h3 : c.link.toFinset.card = 100000) (h4 : wgsmasterUid links = some u) :
    get_contig_uids links archive =
      GcuOutcome.ok ⟨true, some (archive u).2, ContigSet.archived (archive u).1, 1⟩ := by
  simp [get_contig_uids, h1, h2, ContigSet.size, h3, h4]

lemma gcu_wgs_nocap (links : List LinkSetDb) (archive : Nat → List Nat × String)
    (u : Nat) (h1 : choose_strategy (linknames links) = some Strategy.wgsmaster)
    (h2 : wgsmasterUid links = some u) (h3 : (archive u).1.length ≠ 100000) :
    get_contig_uids links archive =
      GcuOutcome.ok ⟨true, some (archive u).2, ContigSet.archived (archive u).1, 1⟩ := by
  simp [get_contig_uids, h1, h2, ContigSet.size, h3]

lemma gcu_wgs_cap (links : List LinkSetDb) (archive : Nat → List Nat × String)
    (u : Nat) (h1 : choose_strategy (linknames links) = some Strategy.wgsmaster)
    (h2 : wgsmasterUid links = some u) (h3 : (archive u).1.length = 100000) :
    get_contig_uids links archive =
      GcuOutcome.ok ⟨true, some (archive u).2, ContigSet.archived (archive u).1, 2⟩ := by
  simp [get_contig_uids, h1, h2, ContigSet.size, h3]

lemma gcu_none (links : List LinkSetDb) (archive : Nat → List Nat × String)
    (h1 : choose_strategy (linknames links) = none) :
    get_contig_uids links archive = GcuOutcome.fatal := by
  simp [get_contig_uids, h1]

/-! ## C5: strategy priority -/

/-- C5: link-strategy selection follows the fixed priority INSDC over
RefSeq over ArchiveWGS: the insdc category present means insdc is chosen;
otherwise refseq present means refseq; otherwise wgsmaster present means
the archive path; with none of the three, get_contig_uids ends the run
fatally. -/
theorem strategy_priority (links : List LinkSetDb)
    (archive : Nat → List Nat × String) :
    ("assembly_nuccore_insdc" ∈ linknames links →
      choose_strategy (linknames links) = some Strategy.insdc)
    ∧ ("assembly_nuccore_insdc" ∉ linknames links →
        "assembly_nuccore_refseq" ∈ linknames links →
        choose_strategy (linknames links) = some Strategy.refseq)
    ∧ ("assembly_nuccore_insdc" ∉ linknames links →
        "assembly_nuccore_refseq" ∉ linknames links →
        "assembly_nuccore_wgsmaster" ∈ linknames links →
        choose_strategy (linknames links) = some Strategy.wgsmaster)
    ∧ ("assembly_nuccore_insdc" ∉ linknames links →
        "assembly_nuccore_refseq" ∉ linknames links →
        "assembly_nuccore_wgsmaster" ∉ linknames links →
        get_contig_uids links archive = GcuOutcome.fatal) := by
  refine ⟨fun h1 => ?_, fun h1 h2 => ?_, fun h1 h2 h3 => ?_, fun h1 h2 h3 => ?_⟩
  · simp [choose_strategy, h1]
  · simp [choose_strategy, h1, h2]
  · simp [choose_strategy, h1, h2, h3]
  · exact gcu_none links archive (by simp [choose_strategy, h1, h2, h3])

/-- Witness for C5 at a concrete link list holding both direct categories:
insdc wins. -/
theorem strategy_priority_witness :
    choose_strategy (linknames
      [⟨"assembly_nuccore_insdc", [1]⟩, ⟨"assembly_nuccore_refseq", [2]⟩])
      = some Strategy.insdc :=
  (strategy_priority
    [⟨"assembly_nuccore_insdc", [1]⟩, ⟨"assembly_nuccore_refseq", [2]⟩]
    (fun _ => ([], "g"))).1 (by decide)

/-! ## C3: result-cap override -/

/-- C3 counterexample: with only the wgsmaster category present - no
direct strategy chosen - an archive fetch that yields exactly 100000
records still triggers the retmax-cap re-resolution: the archive is
fetched a second time (archiveFetches = 2), so the re-resolution is not
triggered only when a direct strategy was chosen. -/
theorem result_cap_counterexample :
    choose_strategy (linknames [⟨"assembly_nuccore_wgsmaster", [7]⟩])
      = some Strategy.wgsmaster
    ∧ get_contig_uids [⟨"assembly_nuccore_wgsmaster", [7]⟩]
        (fun _ => (List.replicate 100000 0, "f"))
      = GcuOutcome.ok
          ⟨true, some "f", ContigSet.archived (List.replicate 100000 0), 2⟩ := by
  refine ⟨by decide, ?_⟩
  have h := gcu_wgs_cap [⟨"assembly_nuccore_wgsmaster", [7]⟩]
    (fun _ => (List.replicate 100000 0, "f")) 7 (by decide) (by decide)
    (by simp only [List.length_replicate])
  exact h

/-- C3 amended: a resolved contig collection of size exactly 100000
triggers re-resolution through the wgsmaster links (the capped set is
discarded), and any other size does not; however the trigger fires
regardless of which strategy was chosen - after the archive path it causes
a second archive fetch - rather than only after a direct strategy. -/
theorem result_cap_override (links : List LinkSetDb)
    (archive : Nat → List Nat × String) (c : LinkSetDb) (u : Nat) :
    (choose_strategy (linknames links) = some Strategy.insdc →
      findLink links "assembly_nuccore_insdc" = some c →
      c.link.toFinset.card = 100000 → wgsmasterUid links = some u →
      get_contig_uids links archive =
        GcuOutcome.ok ⟨true, some (archive u).2,
          ContigSet.archived (archive u).1, 1⟩)
    ∧ (choose_strategy (linknames links) = some Strategy.insdc →
      findLink links "assembly_nuccore_insdc" = some c →
      c.link.toFinset.card ≠ 100000 →
      get_contig_uids links archive =
        GcuOutcome.ok ⟨false, none, ContigSet.direct c.link.toFinset, 0⟩)
    ∧ (choose_strategy (linknames links) = some Strategy.refseq →
      findLink links "assembly_nuccore_refseq" = some c →
      c.link.toFinset.card = 100000 → wgsmasterUid links = some u →
      get_contig_uids links archive =
        GcuOutcome.ok ⟨true, some (archive u).2,
          ContigSet.archived (archive u).1, 1⟩)
    ∧ (choose_strategy (linknames links) = some Strategy.refseq →
      findLink links "assembly_nuccore_refseq" = some c →
      c.link.toFinset.card ≠ 100000 →
      get_contig_uids links archive =
        GcuOutcome.ok ⟨false, none, ContigSet.direct c.link.toFinset, 0⟩)
    ∧ (choose_strategy (linknames links) = some Strategy.wgsmaster →
      wgsmasterUid links = some u → (archive u).1.length = 100000 →
      get_contig_uids links archive =
        GcuOutcome.ok ⟨true, some (archive u).2,
          ContigSet.archived (archive u).1, 2⟩)
    ∧ (choose_strategy (linknames links) = some Strategy.wgsmaster →
      wgsmasterUid links = some u → (archive u).1.length ≠ 100000 →
      get_contig_uids links archive =
        GcuOutcome.ok ⟨true, some (archive u).2,
          ContigSet.archived (archive u).1, 1⟩) :=
  ⟨fun h1 h2 h3 h4 => gcu_insdc_cap links archive c u h1 h2 h3 h4,
   fun h1 h2 h3 => gcu_insdc_nocap links archive c h1 h2 h3,
   fun h1 h2 h3 h4 => gcu_refseq_cap links archive c u h1 h2 h3 h4,
   fun h1 h2 h3 => gcu_refseq_nocap links archive c h1 h2 h3,
   fun h1 h2 h3 => gcu_wgs_cap links archive u h1 h2 h3,
   fun h1 h2 h3 => gcu_wgs_nocap links archive u h1 h2 h3⟩

/-- Witness for C3 amended: a direct insdc set of three contigs (size not
100000) is kept, with no archive fetch. -/
theorem result_cap_override_witness :
    get_contig_uids [⟨"assembly_nuccore_insdc", [1, 2, 3]⟩] (fun _ => ([], "g"))
      = GcuOutcome.ok
          ⟨false, none, ContigSet.direct ([1, 2, 3] : List Nat).toFinset, 0⟩ :=
  (result_cap_override [⟨"assembly_nuccore_insdc", [1, 2, 3]⟩]
    (fun _ => ([], "g")) ⟨"assembly_nuccore_insdc", [1, 2, 3]⟩ 0).2.1
    (by decide) (by decide) (by decide)

/-! ## C4: version-decrement termination -/

lemma version_search_allfail (probe : Nat → Option Nat)
    (hp : ∀ v, probe v = none) :
    ∀ (v : Nat) (acc : List Nat),
      version_search probe v acc = .exhausted (acc.reverse ++ descList v) := by
  intro v
  induction v with
  | zero => intro acc; simp [version_search, descList]
  | succ v ih =>
    intro acc
    rw [version_search, hp (v + 1), ih ((v + 1) :: acc)]
    simp [descList]

lemma mem_descList {v x : Nat} : x ∈ descList v ↔ 1 ≤ x ∧ x ≤ v := by
  induction v with
  | zero => simp [descList]; omega
  | succ v ih => simp [descList, ih]; omega

/-- C4: starting from version V with at least one version to try and every
probe failing, the version search probes exactly V, V-1, ..., 1, never
version 0, terminates, and the archive fetch then ends the run fatally
rather than producing a download. -/
theorem version_decrement_termination (probe : Nat → Option Nat) (V : Nat)
    (hV : 1 ≤ V) (hp : ∀ v, probe v = none) :
    version_search probe V [] = VSOutcome.exhausted (descList V)
    ∧ descList V ≠ []
    ∧ (∀ x ∈ descList V, 1 ≤ x ∧ x ≤ V)
    ∧ retrieve_wgsmaster_version probe V = ArchiveOutcome.fatal (descList V) := by
  have h1 : version_search probe V [] = .exhausted (descList V) := by
    simpa using version_search_allfail probe hp V []
  refine ⟨h1, ?_, fun x hx => mem_descList.1 hx, ?_⟩
  · cases V with
    | zero => omega
    | succ v => simp [descList]
  · rw [retrieve_wgsmaster_version, h1]

/-- Witness for C4 at starting version 3: versions 3, 2, 1 are probed and
the fetch is fatal. -/
theorem version_decrement_termination_witness :
    version_search (fun _ => none) 3 [] = VSOutcome.exhausted [3, 2, 1]
    ∧ retrieve_wgsmaster_version (fun _ => none) 3
        = ArchiveOutcome.fatal [3, 2, 1] := by
  have h := version_decrement_termination (fun _ => none) 3 (by decide)
    (fun v => rfl)
  exact ⟨by rw [h.1]; decide, by rw [h.2.2.2]; decide⟩

/-! ## C10: organism-split precondition -/

/-- C10: building the class/label text silently assumes the organism
string holds at least one space with a non-empty first token: the 1-split
into genus and species raises on a space-free string (unpacking a
one-element list) and indexing the genus raises on a leading space (empty
genus); with a space and a non-space first character the class and label
strings are returned. -/
theorem organism_split_precondition (gname organism strain : List Char) :
    ((' ' : Char) ∉ organism →
      returnsOk (get_class_label_info gname organism strain) = false)
    ∧ (organism.head? = some ' ' →
      returnsOk (get_class_label_info gname organism strain) = false)
    ∧ ((' ' : Char) ∈ organism → organism.head? ≠ some ' ' →
      returnsOk (get_class_label_info gname organism strain) = true) := by
  refine ⟨fun h1 => ?_, fun h1 => ?_, fun h1 h2 => ?_⟩
  · cases organism with
    | nil => simp [get_class_label_info, split1, returnsOk]
    | cons c t => simp [get_class_label_info, split1, h1, returnsOk]
  · cases organism with
    | nil => simp at h1
    | cons c t =>
      have hc : c = ' ' := by simpa using h1
      subst hc
      simp [get_class_label_info, split1, returnsOk, List.takeWhile]
  · cases organism with
    | nil => simp at h1
    | cons c t =>
      have hc : c ≠ ' ' := by
        intro h
        exact h2 (by simp [h])
      simp [get_class_label_info, split1, h1, returnsOk, List.takeWhile, hc]

/-- Witness for C10: a genus-species organism succeeds, a space-free
organism and a leading-space organism fail. -/
theorem organism_split_precondition_witness :
    returnsOk (get_class_label_info "G1".toList "Escherichia coli".toList
      "K12".toList) = true
    ∧ returnsOk (get_class_label_info "G1".toList "Ecoli".toList []) = false
    ∧ returnsOk (get_class_label_info "G1".toList (' ' :: "coli".toList) [])
        = false :=
  ⟨(organism_split_precondition "G1".toList "Escherichia coli".toList
      "K12".toList).2.2 (by decide) (by decide),
   (organism_split_precondition "G1".toList "Ecoli".toList []).1 (by decide),
   (organism_split_precondition "G1".toList (' ' :: "coli".toList) []).2.1
     (by decide)⟩

/-! ## C2, C6: the batched-fetch retry loop of write_contigs -/

lemma wc_loop_never (batchFetch : Nat → Nat → List Nat) (n : Nat)
    (h : ∀ t, (pass_records batchFetch n t).length ≠ n) :
    ∀ (fuel tries : Nat) (records : List Nat), 1 ≤ fuel →
      wc_loop batchFetch n fuel tries records false =
        ⟨tries + fuel, pass_records batchFetch n (tries + fuel - 1), false⟩ := by
  intro fuel
  induction fuel with
  | zero => intro tries records hf; omega
  | succ fuel ih =>
    intro tries records _
    have hb : ((pass_records batchFetch n tries).length == n) = false := by
      simpa using h tries
    rw [wc_loop]
    simp only [if_neg Bool.false_ne_true, hb]
    cases fuel with
    | zero => rw [wc_loop]; simp
    | succ f =>
      rw [ih (tries + 1) (pass_records batchFetch n tries) (by omega)]
      have e1 : tries + 1 + (f + 1) = tries + (f + 1 + 1) := by omega
      rw [e1]

/-- C2 counterexample: expected contig count 1, every pass returning two
records (count exceeds expected).  The first over-returning pass is not
treated as a success: with an attempt ceiling of 2 a second full pass is
made, and the loop ends at the ceiling with success still false. -/
theorem overfetch_retry_counterexample :
    1 < (pass_records (fun _ _ => [5, 5]) 1 0).length
    ∧ write_contigs_fetch (fun _ _ => [5, 5]) 1 2 = ⟨2, [5, 5], false⟩ := by
  constructor
  · decide
  · decide

/-- C2 amended: a pass whose returned-record count strictly exceeds the
expected contig count only logs a warning; it is not treated as a success,
so the whole batched fetch is retried up to the attempt ceiling, and the
records written are those of the final pass. -/
theorem overfetch_no_success (batchFetch : Nat → Nat → List Nat)
    (n retries : Nat) (hr : 1 ≤ retries)
    (h : ∀ t, n < (pass_records batchFetch n t).length) :
    write_contigs_fetch batchFetch n retries =
      ⟨retries, pass_records batchFetch n (retries - 1), false⟩
    ∧ (write_contigs_fetch batchFetch n retries).success = false := by
  have key := wc_loop_never batchFetch n (fun t => by have := h t; omega)
    retries 0 [] hr
  rw [write_contigs_fetch, key]
  simp

/-- Witness for C2 amended: expected count 1, passes of two records,
ceiling 3: three passes run and the final pass's records stand. -/
theorem overfetch_no_success_witness :
    write_contigs_fetch (fun _ _ => [5, 5]) 1 3 = ⟨3, [5, 5], false⟩ :=
  ((overfetch_no_success (fun _ _ => [5, 5]) 1 3 (by decide)
    (fun t => by simp [pass_records, rangeStep]; decide)).1).trans (by decide)

lemma ceil10000_bounds (n : Nat) :
    n ≤ 10000 * ((n + 9999) / 10000)
    ∧ 10000 * ((n + 9999) / 10000) < n + 10000 := by omega

lemma rangeStep10000_length (n : Nat) :
    (rangeStep n 10000).length = (n + 9999) / 10000 := by
  have e : n + 10000 - 1 = n + 9999 := by omega
  simp [rangeStep, e]

/-- C6: each pass of the batched fetch makes one efetch call per offset in
range(0, N, 10000) - exactly the ceiling of N/10000 calls - and when every
pass under-returns, the run is not aborted after the attempt ceiling: the
loop ends with success false and the final pass's records, all of which
are written despite the shortfall. -/
theorem batch_fetch_shortfall (batchFetch : Nat → Nat → List Nat)
    (n retries : Nat) (hr : 1 ≤ retries)
    (h : ∀ t, (pass_records batchFetch n t).length < n) :
    ((rangeStep n 10000).length = (n + 9999) / 10000
      ∧ n ≤ 10000 * (rangeStep n 10000).length
      ∧ 10000 * (rangeStep n 10000).length < n + 10000)
    ∧ write_contigs_fetch batchFetch n retries =
        ⟨retries, pass_records batchFetch n (retries - 1), false⟩
    ∧ write_contigs_written batchFetch n retries =
        pass_records batchFetch n (retries - 1)
    ∧ (write_contigs_written batchFetch n retries).length < n := by
  have key := wc_loop_never batchFetch n (fun t => by have := h t; omega)
    retries 0 [] hr
  have hfetch : write_contigs_fetch batchFetch n retries =
      ⟨retries, pass_records batchFetch n (retries - 1), false⟩ := by
    rw [write_contigs_fetch, key]
    simp
  refine ⟨⟨rangeStep10000_length n, ?_, ?_⟩, hfetch, ?_, ?_⟩
  · rw [rangeStep10000_length n]; exact (ceil10000_bounds n).1
  · rw [rangeStep10000_length n]; exact (ceil10000_bounds n).2
  · rw [write_contigs_written, hfetch]
  · rw [write_contigs_written, hfetch]; exact h (retries - 1)

/-- Witness for C6: one expected contig, empty pages, ceiling 2: one batch
call per pass, two passes, the empty record list written. -/
theorem batch_fetch_shortfall_witness :
    (rangeStep 1 10000).length = 1
    ∧ write_contigs_written (fun _ _ => []) 1 2 = [] := by
  have h := batch_fetch_shortfall (fun _ _ => []) 1 2 (by decide)
    (fun t => by simp [pass_records, rangeStep]; decide)
  exact ⟨by rw [h.1.1], by rw [h.2.2.1]; decide⟩

/-! ## C7: the retry executor entrez_retry -/

lemma log_shift (tries m : Nat) (log : List Nat) :
    ((tries + 2) :: log).reverse ++ (List.range m).map (fun i => tries + 1 + i + 2)
      = log.reverse ++ (List.range (m + 1)).map (fun i => tries + i + 2) := by
  have hfun : (fun i : Nat => tries + 1 + i + 2)
      = (fun i : Nat => tries + (i + 1) + 2) := by
    funext i; omega
  rw [List.range_succ_eq_map, hfun]
  simp [List.map_map, Function.comp_def, Nat.succ_eq_add_one, List.append_assoc]

lemma er_loop_allfail {α : Type} (f : Nat → Except Unit α)
    (hf : ∀ j, f j = .error ()) :
    ∀ (fuel tries : Nat) (log : List Nat),
      er_loop f fuel tries log =
        .fatal (log.reverse ++ (List.range fuel).map (fun i => tries + i + 2)) := by
  intro fuel
  induction fuel with
  | zero => intro tries log; simp [er_loop]
  | succ fuel ih =>
    intro tries log
    rw [er_loop, hf tries, ih (tries + 1) ((tries + 2) :: log), log_shift]

lemma er_loop_firstok {α : Type} (f : Nat → Except Unit α) (k : Nat) (a : α)
    (hk : ∀ j, j < k → f j = .error ()) (ha : f k = .ok a) :
    ∀ (fuel tries : Nat) (log : List Nat), tries ≤ k → k < tries + fuel →
      er_loop f fuel tries log =
        .ok a (log.reverse ++ (List.range (k - tries)).map (fun i => tries + i + 2)) := by
  intro fuel
  induction fuel with
  | zero => intro tries log h1 h2; omega
  | succ fuel ih =>
    intro tries log h1 h2
    rcases Nat.lt_or_ge tries k with hlt | hge
    · rw [er_loop, hk tries hlt,
        ih (tries + 1) ((tries + 2) :: log) (by omega) (by omega)]
      have hm : k - (tries + 1) = k - tries - 1 := by omega
      have hm2 : k - tries - 1 + 1 = k - tries := by omega
      rw [hm, log_shift, hm2]
    · have he : tries = k := by omega
      subst he
      rw [er_loop, ha]
      simp

/-- C7: the retry executor invokes the wrapped operation and on each
raised failure retries, one logged warning per failure, up to the
configured attempt count: the first successful attempt's result is
returned unchanged with one log entry per preceding failure, and when
every attempt fails the executor exits the run fatally - with exactly
retries failures logged - instead of returning an error value. -/
theorem retry_executor {α : Type} (f : Nat → Except Unit α)
    (retries k : Nat) (a : α) :
    ((∀ j, f j = .error ()) →
      entrez_retry f retries = RetryOutcome.fatal (failLog retries)
        ∧ (failLog retries).length = retries)
    ∧ (k < retries → (∀ j, j < k → f j = .error ()) → f k = .ok a →
      entrez_retry f retries = RetryOutcome.ok a (failLog k)
        ∧ (failLog k).length = k) := by
  constructor
  · intro hf
    refine ⟨?_, by simp [failLog]⟩
    have h := er_loop_allfail f hf retries 0 []
    rw [entrez_retry, h]
    simp [failLog]
  · intro hret hk ha
    refine ⟨?_, by simp [failLog]⟩
    have h := er_loop_firstok f k a hk ha retries 0 [] (by omega) (by omega)
    rw [entrez_retry, h]
    simp [failLog]

/-- Witness for C7: the first attempt fails, the second succeeds with
value 42: the executor returns 42 with one failure logged. -/
theorem retry_executor_witness :
    entrez_retry (fun j => if j = 0 then Except.error () else Except.ok 42) 3
      = RetryOutcome.ok 42 (failLog 1) :=
  ((retry_executor (fun j => if j = 0 then Except.error () else Except.ok 42)
    3 1 42).2 (by omega)
    (fun j hj => by
      have hj0 : j = 0 := by omega
      subst hj0
      rfl)
    (by rfl)).1

/-! ## C8: pagination completeness of get_asm_uids -/

lemma get_asm_uids_subset (results : List Nat) :
    ∀ (pages : List Nat) (acc : Finset Nat), acc ⊆ results.toFinset →
      pages.foldl (fun acc s => acc ∪ ((results.drop s).take 250).toFinset) acc
        ⊆ results.toFinset := by
  intro pages
  induction pages with
  | nil => intro acc h; simpa using h
  | cons s ps ih =>
    intro acc h
    rw [List.foldl_cons]
    apply ih
    intro x hx
    rcases Finset.mem_union.1 hx with hx | hx
    · exact h hx
    · rw [List.mem_toFinset] at hx ⊢
      exact List.mem_of_mem_drop (List.mem_of_mem_take hx)

lemma ceil250_bounds (n : Nat) :
    n ≤ 250 * ((n + 249) / 250) ∧ 250 * ((n + 249) / 250) < n + 250 := by
  omega

lemma asm_pages_length (n : Nat) : (asm_pages n).length = (n + 249) / 250 := by
  have e : n + 250 - 1 = n + 249 := by omega
  simp [asm_pages, rangeStep, e]

/-- C8: for a search returning count C, the taxon resolver pages through
the offsets range(0, C, 250) - exactly the ceiling of C/250 pages - and
the assembly-UID set unioned over all pages has cardinality at most C. -/
theorem pagination_completeness (results : List Nat) :
    ((asm_pages results.length).length = (results.length + 249) / 250
      ∧ results.length ≤ 250 * (asm_pages results.length).length
      ∧ 250 * (asm_pages results.length).length < results.length + 250)
    ∧ (get_asm_uids results).card ≤ results.length := by
  refine ⟨⟨asm_pages_length results.length, ?_, ?_⟩, ?_⟩
  · rw [asm_pages_length]; exact (ceil250_bounds results.length).1
  · rw [asm_pages_length]; exact (ceil250_bounds results.length).2
  · calc (get_asm_uids results).card ≤ results.toFinset.card :=
          Finset.card_le_card
            (get_asm_uids_subset results (asm_pages results.length) ∅
              (by simp))
      _ ≤ results.length := results.toFinset_card_le

/-! ## C1, C9: the subcmd_download orchestrator loop -/

lemma foldl_uids_eq (env : DLEnv) (tid : Nat) :
    ∀ (uids : List Nat) (st : DLState),
      uids.foldl (download_uid_step env tid) st =
        ⟨st.classes ++ uids.map env.classOf,
         st.labels ++ uids.map env.labelOf,
         st.skippedlist ++ (uids.filter env.skippedOf).map (mkSkipped env tid),
         st.extracted ++ uids.filter
           (fun u => !env.skippedOf u && !(env.existsOf u && env.noclobber)),
         st.hashWarnings ++ uids.filter
           (fun u => !env.skippedOf u && !env.hashPassedOf u)⟩ := by
  intro uids
  induction uids with
  | nil => intro st; simp
  | cons u us ih =>
    intro st
    rw [List.foldl_cons, ih]
    cases hs : env.skippedOf u <;> cases hh : env.hashPassedOf u <;>
      cases he : env.existsOf u <;> cases hn : env.noclobber <;>
      simp [download_uid_step, check_hash, mkSkipped, hs, hh, he, hn]

lemma subcmd_download_eq (env : DLEnv) (asm_dict : List (Nat × List Nat)) :
    subcmd_download env asm_dict =
      ⟨asm_dict.flatMap (fun p => p.2.map env.classOf),
       asm_dict.flatMap (fun p => p.2.map env.labelOf),
       asm_dict.flatMap (fun p => (p.2.filter env.skippedOf).map (mkSkipped env p.1)),
       asm_dict.flatMap (fun p => p.2.filter
         (fun u => !env.skippedOf u && !(env.existsOf u && env.noclobber))),
       asm_dict.flatMap (fun p => p.2.filter
         (fun u => !env.skippedOf u && !env.hashPassedOf u))⟩ := by
  rw [subcmd_download]
  have main : ∀ (l : List (Nat × List Nat)) (st : DLState),
      l.foldl (fun st p => p.2.foldl (download_uid_step env p.1) st) st =
        ⟨st.classes ++ l.flatMap (fun p => p.2.map env.classOf),
         st.labels ++ l.flatMap (fun p => p.2.map env.labelOf),
         st.skippedlist ++ l.flatMap
           (fun p => (p.2.filter env.skippedOf).map (mkSkipped env p.1)),
         st.extracted ++ l.flatMap (fun p => p.2.filter
           (fun u => !env.skippedOf u && !(env.existsOf u && env.noclobber))),
         st.hashWarnings ++ l.flatMap (fun p => p.2.filter
           (fun u => !env.skippedOf u && !env.hashPassedOf u))⟩ := by
    intro l
    induction l with
    | nil => intro st; simp
    | cons p ps ih =>
      intro st
      rw [List.foldl_cons, foldl_uids_eq env p.1 p.2 st, ih]
      simp [List.append_assoc]
  rw [main]
  simp

/-- A concrete oracle environment in which every acquisition fails
completely: each download status is reported skipped. -/
def env0 : DLEnv :=
  ⟨fun u => toString u ++ "C", fun u => toString u ++ "L",
   fun _ => "org", fun _ => "st", fun _ => "url",
   fun _ => true, fun _ => true, fun _ => false, false⟩

/-- C1 counterexample: one taxon with one assembly whose download is
skipped.  The assembly lands in the skip list exactly once - but its class
and label entries are nevertheless present in the accumulators that the
class/label files are written from, because subcmd_download appends them
before checking the download status. -/
theorem skip_accounting_counterexample :
    subcmd_download env0 [(1, [5])] =
      ⟨["5C"], ["5L"], [⟨1, 5, "org", "st", "url"⟩], [], []⟩
    ∧ ¬ ((subcmd_download env0 [(1, [5])]).classes.count (env0.classOf 5) = 0)
    ∧ ¬ ((subcmd_download env0 [(1, [5])]).labels.count (env0.labelOf 5) = 0) := by
  refine ⟨by decide, by decide, by decide⟩

/-- C1 amended: an assembly whose acquisition fails completely is recorded
exactly once in the skip list, but it DOES have corresponding entries in
the class and label accumulators when the class/label files are written,
since the orchestrator appends the class/label text before attempting the
download. -/
theorem skip_accounting (env : DLEnv) (tid uid : Nat) (uids : List Nat)
    (hcount : uids.count uid = 1) (hskip : env.skippedOf uid = true) :
    ((subcmd_download env [(tid, uids)]).skippedlist.countP
        (fun s => s.accession == uid) = 1)
    ∧ env.classOf uid ∈ (subcmd_download env [(tid, uids)]).classes
    ∧ env.labelOf uid ∈ (subcmd_download env [(tid, uids)]).labels := by
  have hmem : uid ∈ uids := List.count_pos_iff.mp (by omega)
  rw [subcmd_download_eq]
  simp only [List.flatMap_cons, List.flatMap_nil, List.append_nil]
  refine ⟨?_, ?_, ?_⟩
  · rw [List.countP_map]
    have hcomp : ((fun s => s.accession == uid) ∘ mkSkipped env tid)
        = (fun u => u == uid) := by
      funext u; rfl
    rw [hcomp]
    show (uids.filter env.skippedOf).count uid = 1
    rw [List.count_filter hskip, hcount]
  · exact List.mem_map_of_mem env.classOf hmem
  · exact List.mem_map_of_mem env.labelOf hmem

/-- Witness for C1 amended at a concrete skipped assembly. -/
theorem skip_accounting_witness :
    ((subcmd_download env0 [(2, [7])]).skippedlist.countP
        (fun s => s.accession == 7) = 1)
    ∧ env0.classOf 7 ∈ (subcmd_download env0 [(2, [7])]).classes
    ∧ env0.labelOf 7 ∈ (subcmd_download env0 [(2, [7])]).labels :=
  skip_accounting env0 2 7 [7] (by decide) (by decide)

/-- C9: a failed hash check is never fatal and affects nothing but the
logged warning: every accumulator and the set of extracted archives of a
whole run are identical under any two hash-check oracles, and for a
non-skipped assembly whose check failed the per-assembly step equals the
passed-check step with exactly one hash warning added - extraction
proceeds identically in both cases. -/
theorem hash_check_nonfatal (env : DLEnv) (f g : Nat → Bool)
    (asm_dict : List (Nat × List Nat)) (tid uid : Nat) (st : DLState) :
    ((subcmd_download { env with hashPassedOf := f } asm_dict).classes
        = (subcmd_download { env with hashPassedOf := g } asm_dict).classes
      ∧ (subcmd_download { env with hashPassedOf := f } asm_dict).labels
        = (subcmd_download { env with hashPassedOf := g } asm_dict).labels
      ∧ (subcmd_download { env with hashPassedOf := f } asm_dict).skippedlist
        = (subcmd_download { env with hashPassedOf := g } asm_dict).skippedlist
      ∧ (subcmd_download { env with hashPassedOf := f } asm_dict).extracted
        = (subcmd_download { env with hashPassedOf := g } asm_dict).extracted)
    ∧ (env.skippedOf uid = false → check_hash env uid = false →
        download_uid_step env tid st uid =
          { download_uid_step { env with hashPassedOf := fun _ => true } tid st uid
              with hashWarnings := st.hashWarnings ++ [uid] }) := by
  constructor
  · rw [subcmd_download_eq, subcmd_download_eq]
    refine ⟨rfl, rfl, rfl, rfl⟩
  · intro hs hh
    have hh2 : env.hashPassedOf uid = false := hh
    cases he : env.existsOf uid <;> cases hn : env.noclobber <;>
      simp [download_uid_step, check_hash, mkSkipped, hs, hh2, he, hn]

/-- A concrete oracle environment in which no download is skipped and
every hash check fails. -/
def env1 : DLEnv :=
  ⟨fun u => toString u ++ "C", fun u => toString u ++ "L",
   fun _ => "org", fun _ => "st", fun _ => "url",
   fun _ => false, fun _ => false, fun _ => false, false⟩

/-- Witness for C9: a concrete non-skipped assembly with a failing hash
check: the step equals the passing-check step plus the warning entry. -/
theorem hash_check_nonfatal_witness :
    download_uid_step env1 1 ⟨[], [], [], [], []⟩ 4 =
      { download_uid_step { env1 with hashPassedOf := fun _ => true }
          1 ⟨[], [], [], [], []⟩ 4
          with hashWarnings := ([] : List Nat) ++ [4] } :=
  (hash_check_nonfatal env1 (fun _ => false) (fun _ => false) [] 1 4
    ⟨[], [], [], [], []⟩).2 rfl rfl

end PyaniSpec
